import Mathlib

/-!
Verification of the parquet folder-structure validator (`parquet_validator.py`).

The validator is shallowly embedded as pure Lean functions:

* a directory tree is a `Forest` of interleaved file / sub-directory entries
  (the order of a list models one fixed `Path.iterdir()` enumeration order);
* a data file carries the outcome of the external metadata reader:
  `none` models `pq.ParquetFile(item)` raising, `some (schema, none)` models a
  successful open whose stored-partition-path extraction
  (`metadata.row_group(0).column(0).file_path`) then raises, and
  `some (schema, some path)` models a fully successful read.  A schema is an
  opaque equality-comparable value, modelled as `Nat`;
* the validator's mutable fields (`self.schema`, `self.partition_columns`,
  `self.partition_values`, `self.errors`, `self.directory_structures`) become
  the fields of an explicit state `VState` that is threaded through the
  phases.  Python sets and insertion-ordered dicts are modelled as
  duplicate-free lists (`listInsert`) and association lists (`dsAdd`, `pvAdd`);
* error messages are the `String`s the source builds (the quotation marks
  around basePath in the remediation text are dropped, and the text of the
  caught exception at the end of a file-read error is omitted, since no
  property depends on them).
-/

/-- Split a character list at every occurrence of `c`
(the semantics of Python's `str.split(sep)` for a one-character separator). -/
def splitOnChar (c : Char) : List Char → List (List Char)
  | [] => [[]]
  | x :: xs =>
      let r := splitOnChar c xs
      if x = c then [] :: r
      else
        match r with
        | [] => [[x]]
        | y :: ys => (x :: y) :: ys

/-- Split a character list at the first occurrence of `c`, dropping it
(the semantics of Python's `str.split(sep, 1)` when `sep` occurs). -/
def breakAtChar (c : Char) : List Char → List Char × List Char
  | [] => ([], [])
  | x :: xs =>
      if x = c then ([], xs)
      else
        let r := breakAtChar c xs
        (x :: r.1, r.2)

/-- Embeds Python's `"=" in name`. -/
def hasEq (s : String) : Bool := s.data.contains '='

/-- Embeds Python's `name.split("=", 1)` as used under an `"=" in name` guard:
the part before the first `=`, and everything after it. -/
def splitEq1 (s : String) : String × String :=
  let p := breakAtChar '=' s.data
  (String.mk p.1, String.mk p.2)

/-- Embeds Python's `path.split('/')`. -/
def splitSlash (s : String) : List String :=
  (splitOnChar '/' s.data).map String.mk

/-- Embeds Python's `'/'.join(structure)`. -/
def joinSlash : List String → String
  | [] => ""
  | [x] => x
  | x :: y :: xs => x ++ "/" ++ joinSlash (y :: xs)

/-- `listStarts pat l` decides whether `pat` is an initial run of `l`. -/
def listStarts : List Char → List Char → Bool
  | [], _ => true
  | _ :: _, [] => false
  | p :: ps, x :: xs => p = x && listStarts ps xs

/-- Embeds the `item.suffix == '.parquet'` test of the source: `pathlib`
reports suffix `.parquet` exactly for names ending in `.parquet` other than
the bare name `.parquet` itself (whose suffix is empty). -/
def isParquetName (s : String) : Bool :=
  listStarts (String.data ".parquet").reverse s.data.reverse && !(s == ".parquet")

/-- Embeds `str(path / name)` for the POSIX paths the validator builds. -/
def pathJoin (a b : String) : String := a ++ "/" ++ b

/-- Set insertion for the list model of a Python `set` (no-op on members). -/
def listInsert {α : Type} [DecidableEq α] (l : List α) (x : α) : List α :=
  if x ∈ l then l else l ++ [x]

/-- First-match lookup in an insertion-ordered association list
(the model of indexing a Python `dict`), with a default. -/
def dlookup {κ α : Type} [DecidableEq κ] (d : List (κ × α)) (k : κ) (dflt : α) : α :=
  match d with
  | [] => dflt
  | (k2, v) :: rest => if k2 = k then v else dlookup rest k dflt

/-- Embeds Python's `key in dict`. -/
def dictHas {κ α : Type} [DecidableEq κ] (d : List (κ × α)) (k : κ) : Bool :=
  match d with
  | [] => false
  | (k2, _) :: rest => if k2 = k then true else dictHas rest k

/-- Embeds `self.directory_structures.setdefault(level, set()).add(t)` — the
effect of lines 57–59 of the source (a fresh level key is appended at the end,
matching dict insertion order). -/
def dsAdd (ds : List (Nat × List (List String))) (level : Nat) (t : List String) :
    List (Nat × List (List String)) :=
  match ds with
  | [] => [(level, [t])]
  | (k, s) :: rest =>
      if k = level then (k, listInsert s t) :: rest else (k, s) :: dsAdd rest level t

/-- Embeds lines 65–67 of the source: create the value set for a fresh
partition key, then add the value. -/
def pvAdd (pv : List (String × List String)) (k v : String) :
    List (String × List String) :=
  match pv with
  | [] => [(k, [v])]
  | (k2, vs) :: rest =>
      if k2 = k then (k2, listInsert vs v) :: rest else (k2, vs) :: pvAdd rest k v

/-- One directory level of the tree handed to the validator.  The list order
models the fixed `iterdir()` enumeration order; files and sub-directories may
interleave.  A file's second argument is the outcome of the external parquet
metadata reader, as described in the file header. -/
inductive Forest where
  | nil : Forest
  | fileCons (name : String) (readResult : Option (Nat × Option String)) (rest : Forest) : Forest
  | dirCons (name : String) (children : Forest) (rest : Forest) : Forest
deriving DecidableEq

/-- What the base path handed to `ParquetValidator` denotes:
absent, an existing non-directory (a regular file), or a directory tree. -/
inductive RootFS where
  | missing : RootFS
  | nonDir : RootFS
  | dir (contents : Forest) : RootFS

/-- The mutable fields of a `ParquetValidator` instance. -/
structure VState where
  schema : Option Nat
  partition_columns : List String
  partition_values : List (String × List String)
  errors : List String
  directory_structures : List (Nat × List (List String))
deriving DecidableEq

/-- The state `__init__` sets up. -/
def initState : VState :=
  { schema := none, partition_columns := [], partition_values := [],
    errors := [], directory_structures := [] }

/-- Line 24 of the source. -/
def missingMsg (base : String) : String :=
  "Base path " ++ base ++ " does not exist"

/-- Line 46 of the source, with the text of the `NotADirectoryError` raised by
`iterdir()` on a regular file standing in for `str(e)`. -/
def unexpectedMsg (base : String) : String :=
  "Unexpected error during validation: Not a directory: " ++ base

/-- Lines 86–88 (and 113–115) of the source. -/
def conflictHeaderMsg : String :=
  "[CONFLICTING_DIRECTORY_STRUCTURES] Conflicting directory structures detected.\nSuspicious paths:\n"

/-- Lines 93–97 (and 120–124) of the source. -/
def remediationMsg : String :=
  "\nIf provided paths are partition directories, please set basePath in the options of the data source to specify the root directory of the table.\nIf there are multiple root directories, please load them separately and then union them."

/-- Lines 141–144 of the source. -/
def schemaMismatchMsg (p : String) (expected found : Nat) : String :=
  "Schema mismatch in " ++ p ++ ". Expected schema: " ++ toString expected ++
    ", Found schema: " ++ toString found

/-- Lines 152–155 of the source. -/
def partMismatchMsg (p v k : String) : String :=
  "Partition value mismatch in " ++ p ++ ". Value " ++ v ++ " not found in partition " ++ k

/-- Line 158 of the source (the exception text is omitted). -/
def readErrMsg (p : String) : String :=
  "Error reading parquet file " ++ p

/-- Lines 53–67 of the source, for one directory entry: record its path tuple
under its depth, then collect its `key=value` name if it has one. -/
def dirRecord (cur : List String) (name : String) (st : VState) : VState :=
  let ns := cur ++ [name]
  let st1 := { st with directory_structures := dsAdd st.directory_structures ns.length ns }
  if hasEq name then
    { st1 with
        partition_columns := listInsert st1.partition_columns (splitEq1 name).1,
        partition_values := pvAdd st1.partition_values (splitEq1 name).1 (splitEq1 name).2 }
  else st1

/-- `_validate_folder_structure` (lines 49–68): record every directory's path
tuple under its depth, collect `key=value` partition names, recurse. -/
def collectForest (cur : List String) (f : Forest) (st : VState) : VState :=
  match f with
  | .nil => st
  | .fileCons _ _ rest => collectForest cur rest st
  | .dirCons name children rest =>
      collectForest cur rest (collectForest (cur ++ [name]) children (dirRecord cur name st))

/-- Lines 76–78 of the source: add a tuple's first component to the set of
root paths (an empty tuple is skipped by the `if structure:` guard). -/
def rootAdd (acc : List String) (t : List String) : List String :=
  match t with
  | [] => acc
  | h :: _ => listInsert acc h

/-- Lines 73–78 of the source: the set of first components over every
recorded tuple of every level. -/
def rootPaths (ds : List (Nat × List (List String))) : List String :=
  ds.foldl (fun acc p => p.2.foldl rootAdd acc) []

/-- The error-list entries appended by lines 85–97 of the source when the
root-ambiguity check fires. -/
def conflictBlock (base : String) (paths : List String) : List String :=
  (conflictHeaderMsg :: paths.map (fun p => "\t" ++ pathJoin base p)) ++ [remediationMsg]

/-- Inner loop of lines 104–108: keys of the `=`-bearing components of one
tuple, accumulated into a set. -/
def tupleKeysAcc (acc : List String) (t : List String) : List String :=
  t.foldl (fun a d => if hasEq d then listInsert a (splitEq1 d).1 else a) acc

/-- Lines 103–108 of the source: all partition keys appearing in any
component of any tuple recorded at one level. -/
def levelKeys (structs : List (List String)) : List String :=
  structs.foldl tupleKeysAcc []

/-- The error-list entries appended by lines 112–124 of the source for a
conflicting level. -/
def levelBlock (base : String) (structs : List (List String)) : List String :=
  (conflictHeaderMsg :: structs.map (fun t => "\t" ++ pathJoin base (joinSlash t))) ++ [remediationMsg]

/-- Lines 100–125 of the source: scan the levels in insertion order, emit one
block for the first level with more than one distinct key, then stop. -/
def step2 (base : String) (st : VState) : List (Nat × List (List String)) → VState
  | [] => st
  | (_, structs) :: rest =>
      if 1 < (levelKeys structs).length then
        { st with errors := st.errors ++ levelBlock base structs }
      else step2 base st rest

/-- `_check_conflicting_structures` (lines 70–125): the root-ambiguity check,
falling through to the per-level key check only when it does not fire. -/
def checkConflicts (base : String) (st : VState) : VState :=
  let rp := rootPaths st.directory_structures
  if 1 < rp.length ∧ ¬ rp.all hasEq = true then
    { st with errors := st.errors ++ conflictBlock base rp }
  else step2 base st st.directory_structures

/-- Lines 146–155 of the source: the partition-value cross-check over the
`/`-separated components of the file's stored partition path. -/
def partMismatchErrs (p : String) (pv : List (String × List String)) (sp : String) :
    List String :=
  (splitSlash sp).foldl
    (fun acc seg =>
      if hasEq seg then
        if dictHas pv (splitEq1 seg).1 = true ∧ (splitEq1 seg).2 ∉ dlookup pv (splitEq1 seg).1 [] then
          acc ++ [partMismatchMsg p (splitEq1 seg).2 (splitEq1 seg).1]
        else acc
      else acc)
    []

/-- Lines 138–144 of the source: adopt the first opened file's schema,
otherwise compare by equality and record a mismatch. -/
def schemaStep (p : String) (sch : Nat) (st : VState) : VState :=
  match st.schema with
  | none => { st with schema := some sch }
  | some s =>
      if s = sch then st
      else { st with errors := st.errors ++ [schemaMismatchMsg p s sch] }

/-- Lines 133–158 of the source, for one `.parquet` file: an open failure is
caught as a read error; after a successful open the schema step runs, then the
stored-partition-path extraction either raises (caught as a read error, after
the schema step already took effect) or feeds the partition-value check. -/
def processFile (p : String) (rr : Option (Nat × Option String)) (st : VState) : VState :=
  match rr with
  | none => { st with errors := st.errors ++ [readErrMsg p] }
  | some (sch, pr) =>
      let st1 := schemaStep p sch st
      match pr with
      | none => { st1 with errors := st1.errors ++ [readErrMsg p] }
      | some sp => { st1 with errors := st1.errors ++ partMismatchErrs p st1.partition_values sp }

/-- `_validate_parquet_files` (lines 127–158): depth-first walk processing
`.parquet` files in enumeration order. -/
def fileForest (base : String) (f : Forest) (st : VState) : VState :=
  match f with
  | .nil => st
  | .dirCons name children rest =>
      fileForest base rest (fileForest (pathJoin base name) children st)
  | .fileCons name rr rest =>
      if isParquetName name then
        fileForest base rest (processFile (pathJoin base name) rr st)
      else fileForest base rest st

/-- `validate` (lines 20–47).  A missing base path is the early return of
lines 23–25; a non-directory base path makes the first `iterdir()` raise,
which the `except` of lines 45–47 converts into the catch-all error;
otherwise the three phases run in order and the result is the emptiness of
the accumulated error list. -/
def validateRun (base : String) (r : RootFS) : VState × Bool :=
  match r with
  | .missing => ({ initState with errors := [missingMsg base] }, false)
  | .nonDir => ({ initState with errors := [unexpectedMsg base] }, false)
  | .dir f =>
      let st1 := collectForest [] f initState
      let st2 := checkConflicts base st1
      let st3 := fileForest base f st2
      (st3, st3.errors.isEmpty)

/-- `main` (lines 160–170): exit status 1 exactly when `validate` fails. -/
def exitCode (base : String) (r : RootFS) : Nat :=
  if (validateRun base r).2 then 0 else 1

/-! ## Helper lemmas -/

theorem strAppendData (a b : String) : (a ++ b).data = a.data ++ b.data :=
  String.data_append a b

theorem append_head_eq (a b : String) (c : Char) (cs : List Char)
    (h : a.data = c :: cs) : (a ++ b).data.head? = some c := by
  rw [strAppendData, h]; rfl

theorem missingMsg_ne_unexpectedMsg (base : String) :
    missingMsg base ≠ unexpectedMsg base := by
  intro h
  have h1 : (missingMsg base).data.head? = some 'B' := by
    have hd : ("Base path " ++ base).data = 'B' :: ("ase path ".data ++ base.data) := by
      rw [strAppendData]; rfl
    exact append_head_eq _ _ _ _ hd
  have h2 : (unexpectedMsg base).data.head? = some 'U' := by
    exact append_head_eq _ _ 'U' _ rfl
  rw [h, h2] at h1
  simp at h1

theorem tab_line_ne_header (x : String) : "\t" ++ x ≠ conflictHeaderMsg := by
  intro h
  have h1 : ("\t" ++ x).data.head? = some '\t' := append_head_eq _ _ '\t' [] rfl
  rw [h] at h1
  have h2 : conflictHeaderMsg.data.head? = some '[' := rfl
  rw [h2] at h1
  simp at h1

theorem collect_errors (f : Forest) (cur : List String) (st : VState) :
    (collectForest cur f st).errors = st.errors := by
  induction f generalizing cur st with
  | nil => rfl
  | fileCons name rr rest ih => simpa [collectForest] using ih cur st
  | dirCons name children rest ihc ihr =>
      simp only [collectForest]
      rw [ihr, ihc]
      by_cases h : hasEq name = true <;> simp [dirRecord, h]

theorem collect_schema (f : Forest) (cur : List String) (st : VState) :
    (collectForest cur f st).schema = st.schema := by
  induction f generalizing cur st with
  | nil => rfl
  | fileCons name rr rest ih => simpa [collectForest] using ih cur st
  | dirCons name children rest ihc ihr =>
      simp only [collectForest]
      rw [ihr, ihc]
      by_cases h : hasEq name = true <;> simp [dirRecord, h]

theorem schemaStep_schema_some (p : String) (sch : Nat) (st : VState) (s : Nat)
    (h : st.schema = some s) : (schemaStep p sch st).schema = some s := by
  simp only [schemaStep, h]
  by_cases hs : s = sch
  · subst hs; simp [h]
  · simp [hs, h]

theorem processFile_schema_some (p : String) (rr : Option (Nat × Option String))
    (st : VState) (s : Nat) (h : st.schema = some s) :
    (processFile p rr st).schema = some s := by
  match rr with
  | none => simpa [processFile] using h
  | some (sch, none) => simpa [processFile] using schemaStep_schema_some p sch st s h
  | some (sch, some sp) => simpa [processFile] using schemaStep_schema_some p sch st s h

theorem fileForest_schema_some (base : String) (f : Forest) (st : VState) (s : Nat)
    (h : st.schema = some s) : (fileForest base f st).schema = some s := by
  induction f generalizing base st with
  | nil => exact h
  | fileCons name rr rest ih =>
      simp only [fileForest]
      by_cases hp : isParquetName name = true <;>
        simp only [hp, if_true, if_false, Bool.false_eq_true]
      · exact ih base _ (processFile_schema_some _ rr st s h)
      · exact ih base st h
  | dirCons name children rest ihc ihr =>
      simp only [fileForest]
      exact ihr base _ (ihc (pathJoin base name) st h)

/-! ## Concrete inputs used by the closed theorems -/

/-- A canonical two-level Hive layout: one `year=2020` root directory holding
one `month=01` directory, no files. -/
def c1Tree : Forest := .dirCons "year=2020" (.dirCons "month=01" .nil .nil) .nil

/-- A single directory whose name holds two `=` characters. -/
def c2Tree : Forest := .dirCons "a=b=c" .nil .nil

/-- Two root files: the first opens (schema 1) but its partition-path
extraction fails, the second reads fully with a different schema. -/
def c4Tree : Forest :=
  .fileCons "a.parquet" (some (1, none)) (.fileCons "b.parquet" (some (2, some "")) .nil)

/-- Two root files: the first opens (schema 5) but its partition-path
extraction fails, the second reads fully with schema 7. -/
def c9Tree : Forest :=
  .fileCons "a.parquet" (some (5, none)) (.fileCons "b.parquet" (some (7, some "x")) .nil)

/-- Two root directories, one partition-style and one not. -/
def c3WTree : Forest := .dirCons "a" .nil (.dirCons "year=1" .nil .nil)

/-! ## Claim theorems -/

/-- C1 (code bug): on the canonical uniformly-keyed layout
`year=2020/month=01` — exactly one distinct partition key per depth (`year`
at depth 1, `month` at depth 2, witnessed by the recorded structures in the
first conjunct) and no files, hence vacuously consistent schemas — the claim
requires no conflicting-structure error and a successful run, but the code's
depth-level check gathers the keys of *every* component of each depth-2
tuple, sees two keys, and fails the run with a conflicting-structure error. -/
theorem c1_nested_partition_flagged :
    (collectForest [] c1Tree initState).directory_structures =
      [(1, [["year=2020"]]), (2, [["year=2020", "month=01"]])] ∧
    conflictHeaderMsg ∈ (validateRun "/data" (.dir c1Tree)).1.errors ∧
    (validateRun "/data" (.dir c1Tree)).2 = false := by decide

/-- C2 (counterexample): the directory name `a=b=c` holds more than one `=`,
so by the claim it must contribute no key/value pair; the code splits on the
first `=` and records key `a` with value `b=c`. -/
theorem c2_two_equals_contributes :
    hasEq "a=b=c" = true ∧
    (collectForest [] c2Tree initState).partition_columns = ["a"] ∧
    (collectForest [] c2Tree initState).partition_values = [("a", ["b=c"])] := by decide

/-- C2 (amended): during collection a directory contributes a key/value pair
exactly when its name holds at least one `=` (the embedded `"=" in name`
test), splitting on the first occurrence; a name with no `=` contributes
nothing. -/
theorem c2_contribution_iff_hasEq (cur : List String) (st : VState) (name : String) :
    ((collectForest cur (.dirCons name .nil .nil) st).partition_columns,
      (collectForest cur (.dirCons name .nil .nil) st).partition_values) =
      (if hasEq name then
        (listInsert st.partition_columns (splitEq1 name).1,
          pvAdd st.partition_values (splitEq1 name).1 (splitEq1 name).2)
      else (st.partition_columns, st.partition_values)) ∧
    (hasEq name = true ↔ '=' ∈ name.data) := by
  constructor
  · by_cases h : hasEq name = true <;> simp [collectForest, dirRecord, h]
  · simp [hasEq, List.contains]

/-- C6: `validate` reports success exactly when the accumulated error list is
empty at the end of the run, and `main` exits with a non-zero status exactly
when that list is non-empty. -/
theorem c6_success_iff_no_errors (base : String) (r : RootFS) :
    ((validateRun base r).2 = true ↔ (validateRun base r).1.errors = []) ∧
    (exitCode base r ≠ 0 ↔ (validateRun base r).1.errors ≠ []) := by
  cases r with
  | missing => simp [validateRun, exitCode, initState]
  | nonDir => simp [validateRun, exitCode, initState]
  | dir f =>
      constructor
      · simp [validateRun, List.isEmpty_iff]
      · simp only [exitCode, validateRun]
        by_cases h : (fileForest base f (checkConflicts base (collectForest [] f initState))).errors = [] <;>
          simp [h, List.isEmpty_iff]

/-- C7: a `.parquet` file whose metadata read fails yields exactly one
file-read-error naming that file, the rest of the state is untouched, and
the walk continues with the remaining entries — this holds both when the
open itself fails and when the open succeeds (running the schema step) but
the stored-partition-path extraction fails. -/
theorem c7_read_failure_continues (base name : String) (rest : Forest) (st : VState)
    (h : isParquetName name = true) :
    (fileForest base (.fileCons name none rest) st =
      fileForest base rest
        { st with errors := st.errors ++ [readErrMsg (pathJoin base name)] }) ∧
    (∀ sch : Nat, fileForest base (.fileCons name (some (sch, none)) rest) st =
      fileForest base rest
        { schemaStep (pathJoin base name) sch st with
            errors := (schemaStep (pathJoin base name) sch st).errors ++
              [readErrMsg (pathJoin base name)] }) := by
  constructor
  · simp [fileForest, h, processFile]
  · intro sch; simp [fileForest, h, processFile]

/-- Witness for C7 at a concrete file. -/
theorem c7_read_failure_continues_witness :
    isParquetName "x.parquet" = true ∧
    fileForest "/d" (.fileCons "x.parquet" none .nil) initState =
      fileForest "/d" .nil
        { initState with errors := initState.errors ++ [readErrMsg (pathJoin "/d" "x.parquet")] } :=
  ⟨by decide, (c7_read_failure_continues "/d" "x.parquet" .nil initState (by decide)).1⟩

/-- C8: a missing root path makes the run fail immediately with the single
missing-path error; no collection, conflict detection or file validation
output ever appears (the rest of the state is still the initial one). -/
theorem c8_missing_path_aborts (base : String) :
    (validateRun base .missing).1.errors = [missingMsg base] ∧
    (validateRun base .missing).2 = false ∧
    (validateRun base .missing).1.directory_structures = [] ∧
    (validateRun base .missing).1.schema = none ∧
    (validateRun base .missing).1.partition_values = [] ∧
    exitCode base .missing = 1 := by
  simp [validateRun, exitCode, initState]

/-- C9: on `c9Tree` the first file's open succeeds (schema 5) but its
partition-path extraction fails, so it is reported with a file-read-error —
yet its schema becomes the reference: the run ends with reference schema 5
and the second file is flagged against it. -/
theorem c9_unreadable_file_sets_reference :
    (validateRun "/data" (.dir c9Tree)).1.schema = some 5 ∧
    readErrMsg (pathJoin "/data" "a.parquet") ∈ (validateRun "/data" (.dir c9Tree)).1.errors ∧
    schemaMismatchMsg (pathJoin "/data" "b.parquet") 5 7 ∈
      (validateRun "/data" (.dir c9Tree)).1.errors ∧
    readErrMsg (pathJoin "/data" "b.parquet") ∉ (validateRun "/data" (.dir c9Tree)).1.errors := by
  decide

/-- C10: when the root path exists but is a regular file, the run does not
report missing-path; the traversal raises, the catch-all unexpected error is
the only recorded error, no phase output exists, and `validate` fails. -/
theorem c10_root_not_directory (base : String) :
    (validateRun base .nonDir).1.errors = [unexpectedMsg base] ∧
    (validateRun base .nonDir).2 = false ∧
    missingMsg base ∉ (validateRun base .nonDir).1.errors ∧
    (validateRun base .nonDir).1.directory_structures = [] ∧
    (validateRun base .nonDir).1.schema = none := by
  refine ⟨rfl, rfl, ?_, rfl, rfl⟩
  simp only [validateRun, List.mem_singleton]
  exact missingMsg_ne_unexpectedMsg base

/-- C4 (counterexample): in `c4Tree` the only successfully-read file is
`b.parquet` (the run records a file-read-error for `a.parquet` and none for
`b.parquet`), so under the claim the reference schema would be `b`'s schema 2
and no comparison could fail; the code instead keeps `a`'s schema 1 as the
reference and flags `b.parquet` against it. -/
theorem c4_unread_file_keeps_reference :
    (validateRun "/d" (.dir c4Tree)).1.schema = some 1 ∧
    readErrMsg (pathJoin "/d" "a.parquet") ∈ (validateRun "/d" (.dir c4Tree)).1.errors ∧
    readErrMsg (pathJoin "/d" "b.parquet") ∉ (validateRun "/d" (.dir c4Tree)).1.errors ∧
    schemaMismatchMsg (pathJoin "/d" "b.parquet") 1 2 ∈
      (validateRun "/d" (.dir c4Tree)).1.errors := by decide

/-- C4 (amended): the reference schema is assigned from the first file whose
metadata *open* succeeds — even when that file's partition-path extraction
then fails and a file-read-error is emitted for it — and is never reassigned
during the walk; every later opened file is compared to it by equality only:
on inequality a schema-mismatch naming the file and both schemas is emitted,
on equality nothing is, and in either case processing continues with the
remaining entries. -/
theorem c4_reference_schema_amended :
    (∀ (base : String) (f : Forest) (st : VState) (s : Nat),
        st.schema = some s → (fileForest base f st).schema = some s) ∧
    (∀ (p : String) (sch : Nat) (pr : Option String) (st : VState),
        st.schema = none → (processFile p (some (sch, pr)) st).schema = some sch) ∧
    (∀ (p : String) (sch : Nat) (pr : Option String) (st : VState) (s : Nat),
        st.schema = some s → s ≠ sch →
        schemaMismatchMsg p s sch ∈ (processFile p (some (sch, pr)) st).errors) ∧
    (∀ (p : String) (sch : Nat) (pr : Option String) (st : VState) (s : Nat),
        st.schema = some s → s = sch →
        (processFile p (some (sch, pr)) st).errors =
          st.errors ++
            (match pr with
              | none => [readErrMsg p]
              | some sp => partMismatchErrs p st.partition_values sp)) ∧
    (∀ (base name : String) (rr : Option (Nat × Option String)) (rest : Forest) (st : VState),
        fileForest base (.fileCons name rr rest) st =
          fileForest base rest
            (if isParquetName name then processFile (pathJoin base name) rr st else st)) := by
  refine ⟨fileForest_schema_some, ?_, ?_, ?_, ?_⟩
  · intro p sch pr st h
    cases pr <;> simp [processFile, schemaStep, h]
  · intro p sch pr st s h hne
    cases pr <;> simp [processFile, schemaStep, h, hne]
  · intro p sch pr st s h he
    subst he
    cases pr <;> simp [processFile, schemaStep, h]
  · intro base name rr rest st
    by_cases hp : isParquetName name = true <;> simp [fileForest, hp]

/-- Witness for C4's amended theorem at concrete inputs. -/
theorem c4_reference_schema_amended_witness :
    (fileForest "/d" c4Tree { initState with schema := some 9 }).schema = some 9 ∧
    (processFile "/w.parquet" (some (4, none)) initState).schema = some 4 ∧
    schemaMismatchMsg "/w.parquet" 9 4 ∈
      (processFile "/w.parquet" (some (4, some "x")) { initState with schema := some 9 }).errors :=
  ⟨c4_reference_schema_amended.1 "/d" c4Tree _ 9 rfl,
    c4_reference_schema_amended.2.1 "/w.parquet" 4 none initState rfl,
    c4_reference_schema_amended.2.2.1 "/w.parquet" 4 (some "x") _ 9 rfl (by decide)⟩

/-- The per-segment rule of the spec's partition-value check, following its
words: an `=`-bearing segment whose key is in the collected partition-value
map but whose value is absent from that key's recorded set yields the
partition-value-mismatch error naming the file, the value and the key; any
other segment yields nothing. -/
def specSegmentErr (p : String) (pv : List (String × List String)) (seg : String) :
    Option String :=
  if hasEq seg = true ∧ dictHas pv (splitEq1 seg).1 = true ∧
      (splitEq1 seg).2 ∉ dlookup pv (splitEq1 seg).1 [] then
    some (partMismatchMsg p (splitEq1 seg).2 (splitEq1 seg).1)
  else none

theorem foldl_opt_append {α β : Type} (g : α → Option β) (step : List β → α → List β)
    (hstep : ∀ acc x, step acc x = acc ++ (g x).toList) (l : List α) (acc : List β) :
    l.foldl step acc = acc ++ l.filterMap g := by
  induction l generalizing acc with
  | nil => simp
  | cons x xs ih =>
      rw [List.foldl_cons, hstep, ih]
      cases h : g x <;> simp [List.filterMap_cons, h]

theorem length_filterMap_eq_countP {α β : Type} (g : α → Option β) (l : List α) :
    (l.filterMap g).length = l.countP (fun x => (g x).isSome) := by
  induction l with
  | nil => rfl
  | cons x xs ih => cases h : g x <;> simp [List.filterMap_cons, h, List.countP_cons, ih]

/-- C5: the partition-value check of the file phase emits exactly one
partition-value-mismatch — naming the file, the value and the key — per
offending `=`-bearing segment of the stored partition path (in segment
order), and nothing for any other segment; and for a fully-read file these
errors are appended after the schema step, against the partition values
collected in the first phase. -/
theorem c5_partition_value_check (p sp : String) (pv : List (String × List String)) :
    partMismatchErrs p pv sp = (splitSlash sp).filterMap (specSegmentErr p pv) ∧
    (partMismatchErrs p pv sp).length =
      (splitSlash sp).countP (fun seg => (specSegmentErr p pv seg).isSome) ∧
    (∀ (sch : Nat) (st : VState),
      (processFile p (some (sch, some sp)) st).errors =
        (schemaStep p sch st).errors ++ partMismatchErrs p st.partition_values sp) := by
  have hmain : partMismatchErrs p pv sp = (splitSlash sp).filterMap (specSegmentErr p pv) := by
    unfold partMismatchErrs
    refine foldl_opt_append (specSegmentErr p pv) _ ?_ (splitSlash sp) []
    intro acc seg
    by_cases h1 : hasEq seg = true
    · by_cases h2 : dictHas pv (splitEq1 seg).1 = true ∧
          (splitEq1 seg).2 ∉ dlookup pv (splitEq1 seg).1 []
      · simp [specSegmentErr, h1, h2]
      · simp [specSegmentErr, h1, h2]
    · simp [specSegmentErr, h1]
  refine ⟨hmain, ?_, ?_⟩
  · rw [hmain]; exact length_filterMap_eq_countP _ _
  · intro sch st
    have hpv : (schemaStep p sch st).partition_values = st.partition_values := by
      unfold schemaStep
      cases st.schema with
      | none => rfl
      | some s => by_cases hs : s = sch <;> simp [hs]
    simp [processFile, hpv]

/-! ## Shape of the collected directory structures

For C3 the code's root-path set (built from the first component of *every*
recorded tuple) must be related to the claim's set of first components of
the *depth-1* tuples.  On any state reachable by collection the two agree:
the structure dictionary is either empty or starts with the level-1 entry,
level-1 tuples are distinct singletons, and every deeper tuple starts with a
recorded root directory name. -/

theorem mem_listInsert_self {α : Type} [DecidableEq α] (l : List α) (x : α) :
    x ∈ listInsert l x := by
  unfold listInsert
  by_cases h : x ∈ l <;> simp [h]

theorem mem_listInsert_of_mem {α : Type} [DecidableEq α] {l : List α} {y : α} (x : α)
    (h : y ∈ l) : y ∈ listInsert l x := by
  unfold listInsert
  by_cases hx : x ∈ l <;> simp [hx, h]

theorem mem_listInsert_iff {α : Type} [DecidableEq α] (l : List α) (x y : α) :
    y ∈ listInsert l x ↔ y ∈ l ∨ y = x := by
  unfold listInsert
  by_cases h : x ∈ l
  · simp only [h, if_true]
    constructor
    · exact fun hy => Or.inl hy
    · rintro (hy | rfl)
      · exact hy
      · exact h
  · simp [h]

theorem nodup_listInsert {α : Type} [DecidableEq α] {l : List α} (x : α) (h : l.Nodup) :
    (listInsert l x).Nodup := by
  unfold listInsert
  by_cases hx : x ∈ l
  · simp [hx, h]
  · simp [hx, List.nodup_append, h, List.disjoint_singleton]

theorem listInsert_of_mem {α : Type} [DecidableEq α] {l : List α} {x : α} (h : x ∈ l) :
    listInsert l x = l := by
  simp [listInsert, h]

/-- Every entry after the level-1 one carries tuples that start with a
recorded root directory name. -/
def restOK (S1 : List (List String)) (rest : List (Nat × List (List String))) : Prop :=
  ∀ q ∈ rest, q.1 ≠ 1 ∧ ∀ t ∈ q.2, ∃ h tl, t = h :: tl ∧ [h] ∈ S1

/-- Shape invariant of `directory_structures` along collection. -/
def dsShape : List (Nat × List (List String)) → Prop
  | [] => True
  | (k, S1) :: rest =>
      k = 1 ∧ S1.Nodup ∧ (∀ t ∈ S1, ∃ h, t = [h]) ∧ restOK S1 rest

theorem dsAdd_one (ds : List (Nat × List (List String))) (x : String) (hds : dsShape ds) :
    dsShape (dsAdd ds 1 [x]) ∧
      dlookup (dsAdd ds 1 [x]) 1 [] = listInsert (dlookup ds 1 []) [x] := by
  match ds with
  | [] =>
      refine ⟨⟨rfl, by simp, ?_, ?_⟩, by simp [dsAdd, dlookup, listInsert]⟩
      · intro t ht
        simp only [dsAdd, List.mem_singleton] at ht
        exact ⟨x, ht⟩
      · intro q hq
        simp [dsAdd] at hq
  | (k, S1) :: rest =>
      obtain ⟨hk, hnd, hsing, hrest⟩ := hds
      subst hk
      simp only [dsAdd, if_pos rfl]
      refine ⟨⟨rfl, nodup_listInsert _ hnd, ?_, ?_⟩, by simp [dlookup]⟩
      · intro t ht
        rcases (mem_listInsert_iff _ _ _).1 ht with h | h
        · exact hsing t h
        · exact ⟨x, h⟩
      · intro q hq
        obtain ⟨hq1, hq2⟩ := hrest q hq
        refine ⟨hq1, fun t ht => ?_⟩
        obtain ⟨h, tl, htl, hh⟩ := hq2 t ht
        exact ⟨h, tl, htl, mem_listInsert_of_mem _ hh⟩

theorem restOK_dsAdd (S1 : List (List String)) (rest : List (Nat × List (List String)))
    (level : Nat) (h : String) (tl : List String)
    (hlev : level ≠ 1) (hh : [h] ∈ S1) :
    restOK S1 rest → restOK S1 (dsAdd rest level (h :: tl)) := by
  induction rest with
  | nil =>
      intro _ q hq
      simp only [dsAdd, List.mem_singleton] at hq
      subst hq
      refine ⟨hlev, fun t ht => ?_⟩
      simp only [List.mem_singleton] at ht
      subst ht
      exact ⟨h, tl, rfl, hh⟩
  | cons q0 rest0 ih =>
      intro hr
      obtain ⟨k0, s0⟩ := q0
      by_cases hk : k0 = level
      · subst hk
        intro q hq
        simp [dsAdd] at hq
        rcases hq with hq | hq
        · subst hq
          obtain ⟨h1, h2⟩ := hr (k0, s0) (List.mem_cons_self _ _)
          refine ⟨h1, fun t ht => ?_⟩
          rcases (mem_listInsert_iff _ _ _).1 ht with ht | ht
          · exact h2 t ht
          · subst ht
            exact ⟨h, tl, rfl, hh⟩
        · exact hr q (List.mem_cons_of_mem _ hq)
      · intro q hq
        simp only [dsAdd, if_neg hk, List.mem_cons] at hq
        rcases hq with hq | hq
        · subst hq
          exact hr (k0, s0) (List.mem_cons_self _ _)
        · exact ih (fun q2 hq2 => hr q2 (List.mem_cons_of_mem _ hq2)) q hq

theorem dsAdd_deep (ds : List (Nat × List (List String))) (level : Nat) (h : String)
    (tl : List String) (hds : dsShape ds) (hlev : 2 ≤ level)
    (hh : [h] ∈ dlookup ds 1 []) :
    dsShape (dsAdd ds level (h :: tl)) ∧
      dlookup (dsAdd ds level (h :: tl)) 1 [] = dlookup ds 1 [] := by
  match ds with
  | [] => simp [dlookup] at hh
  | (k, S1) :: rest =>
      obtain ⟨hk, hnd, hsing, hrest⟩ := hds
      subst hk
      have hne : ¬((1 : Nat) = level) := by omega
      have hh2 : [h] ∈ S1 := by simpa [dlookup] using hh
      simp only [dsAdd, if_neg hne]
      exact ⟨⟨rfl, hnd, hsing,
        restOK_dsAdd S1 rest level h tl (by omega) hh2 hrest⟩, by simp [dlookup]⟩

theorem dirRecord_ds (cur : List String) (name : String) (st : VState) :
    (dirRecord cur name st).directory_structures =
      dsAdd st.directory_structures (cur ++ [name]).length (cur ++ [name]) := by
  unfold dirRecord
  by_cases h : hasEq name = true <;> simp [h]

theorem collect_deep (f : Forest) :
    ∀ (h : String) (tl : List String) (st : VState),
      dsShape st.directory_structures →
      [h] ∈ dlookup st.directory_structures 1 [] →
      dsShape (collectForest (h :: tl) f st).directory_structures ∧
        dlookup (collectForest (h :: tl) f st).directory_structures 1 [] =
          dlookup st.directory_structures 1 [] := by
  induction f with
  | nil => exact fun h tl st hds _ => ⟨hds, rfl⟩
  | fileCons name rr rest ih => exact fun h tl st hds hh => ih h tl st hds hh
  | dirCons name children rest ihc ihr =>
      intro h tl st hds hh
      have hlen : 2 ≤ ((h :: tl) ++ [name]).length := by
        simp only [List.length_append, List.length_cons, List.length_nil]
        omega
      have hone := dsAdd_deep st.directory_structures ((h :: tl) ++ [name]).length h
        (tl ++ [name]) hds hlen hh
      have hds1 : dsShape (dirRecord (h :: tl) name st).directory_structures := by
        rw [dirRecord_ds]; exact hone.1
      have hlk1 : dlookup (dirRecord (h :: tl) name st).directory_structures 1 [] =
          dlookup st.directory_structures 1 [] := by
        rw [dirRecord_ds]; exact hone.2
      have hc := ihc h (tl ++ [name]) (dirRecord (h :: tl) name st) hds1
        (by rw [hlk1]; exact hh)
      have hr := ihr h tl
        (collectForest (h :: (tl ++ [name])) children (dirRecord (h :: tl) name st))
        hc.1 (by rw [hc.2, hlk1]; exact hh)
      refine ⟨hr.1, ?_⟩
      rw [show (collectForest (h :: tl) (.dirCons name children rest) st) =
        collectForest (h :: tl) rest (collectForest (h :: (tl ++ [name])) children
          (dirRecord (h :: tl) name st)) from rfl]
      rw [hr.2, hc.2, hlk1]

theorem collect_top (f : Forest) :
    ∀ st : VState, dsShape st.directory_structures →
      dsShape (collectForest [] f st).directory_structures := by
  induction f with
  | nil => exact fun st hds => hds
  | fileCons name rr rest ih => exact fun st hds => ih st hds
  | dirCons name children rest ihc ihr =>
      intro st hds
      have hone := dsAdd_one st.directory_structures name hds
      have hds1 : dsShape (dirRecord [] name st).directory_structures := by
        rw [dirRecord_ds]; exact hone.1
      have hlk1 : dlookup (dirRecord [] name st).directory_structures 1 [] =
          listInsert (dlookup st.directory_structures 1 []) [name] := by
        rw [dirRecord_ds]; exact hone.2
      have hmem : [name] ∈ dlookup (dirRecord [] name st).directory_structures 1 [] := by
        rw [hlk1]; exact mem_listInsert_self _ _
      have hc := collect_deep children name [] (dirRecord [] name st) hds1 hmem
      exact ihr _ hc.1

theorem foldl_rootAdd_singletons (S : List (List String)) :
    ∀ acc : List String, (∀ t ∈ S, ∃ h, t = [h]) → S.Nodup →
      (∀ t ∈ S, t.headD "" ∉ acc) →
      S.foldl rootAdd acc = acc ++ S.map (fun t => t.headD "") := by
  induction S with
  | nil => intro acc _ _ _; simp
  | cons t S2 ih =>
      intro acc hsing hnd hacc
      obtain ⟨h0, rfl⟩ := hsing t (List.mem_cons_self _ _)
      have hni : h0 ∉ acc := by simpa using hacc [h0] (List.mem_cons_self _ _)
      have hins : rootAdd acc [h0] = acc ++ [h0] := by
        simp [rootAdd, listInsert, hni]
      rw [List.foldl_cons, hins,
        ih (acc ++ [h0]) (fun t2 ht2 => hsing t2 (List.mem_cons_of_mem _ ht2))
          (List.Nodup.of_cons hnd) ?_]
      · simp
      · intro t2 ht2
        obtain ⟨h2, rfl⟩ := hsing t2 (List.mem_cons_of_mem _ ht2)
        have hne : h2 ≠ h0 := by
          intro he
          subst he
          exact (List.nodup_cons.1 hnd).1 ht2
        simp only [List.headD_cons, List.mem_append, List.mem_singleton]
        rintro (hc | hc)
        · exact hacc [h2] (List.mem_cons_of_mem _ ht2) (by simpa using hc)
        · exact hne hc

theorem foldl_rootAdd_covered (S : List (List String)) :
    ∀ acc : List String, (∀ t ∈ S, ∃ h tl, t = h :: tl ∧ h ∈ acc) →
      S.foldl rootAdd acc = acc := by
  induction S with
  | nil => intro acc _; rfl
  | cons t S2 ih =>
      intro acc hS
      obtain ⟨h0, tl0, rfl, hmem⟩ := hS t (List.mem_cons_self _ _)
      have hins : rootAdd acc (h0 :: tl0) = acc := by
        simp [rootAdd, listInsert_of_mem hmem]
      rw [List.foldl_cons, hins,
        ih acc (fun t2 ht2 => hS t2 (List.mem_cons_of_mem _ ht2))]

theorem foldl_levels_covered (rest : List (Nat × List (List String))) :
    ∀ acc : List String,
      (∀ q ∈ rest, ∀ t ∈ q.2, ∃ h tl, t = h :: tl ∧ h ∈ acc) →
      rest.foldl (fun acc2 p => p.2.foldl rootAdd acc2) acc = acc := by
  induction rest with
  | nil => intro acc _; rfl
  | cons q rest2 ih =>
      intro acc hq
      rw [List.foldl_cons, foldl_rootAdd_covered q.2 acc (hq q (List.mem_cons_self _ _)),
        ih acc (fun q2 hq2 => hq q2 (List.mem_cons_of_mem _ hq2))]

/-- On any state shaped by collection, the code's root-path set (over every
recorded tuple of every level, lines 73–78) coincides with the first
components of the depth-1 tuples. -/
theorem rootPaths_eq (ds : List (Nat × List (List String))) (hds : dsShape ds) :
    rootPaths ds = (dlookup ds 1 []).map (fun t => t.headD "") := by
  match ds with
  | [] => rfl
  | (k, S1) :: rest =>
      obtain ⟨hk, hnd, hsing, hrest⟩ := hds
      subst hk
      have hlk : dlookup (((1 : Nat), S1) :: rest) 1 [] = S1 := by simp [dlookup]
      rw [hlk]
      show (((1 : Nat), S1) :: rest).foldl (fun acc p => p.2.foldl rootAdd acc) [] = _
      rw [List.foldl_cons]
      have h1 : S1.foldl rootAdd [] = S1.map (fun t => t.headD "") := by
        simpa using foldl_rootAdd_singletons S1 [] hsing hnd (by simp)
      show rest.foldl (fun acc p => p.2.foldl rootAdd acc) (S1.foldl rootAdd []) = _
      rw [h1]
      refine foldl_levels_covered rest _ ?_
      intro q hq t ht
      obtain ⟨h2, tl2, rfl, hh2⟩ := (hrest q hq).2 t ht
      exact ⟨h2, tl2, rfl, List.mem_map.2 ⟨[h2], hh2, rfl⟩⟩

/-- The claim's set of distinct first path segments over the depth-1 tuples
of the collected structure. -/
def level1Heads (st : VState) : List String :=
  (dlookup st.directory_structures 1 []).map (fun t => t.headD "")

/-- C3: on a collected structure, when the depth-1 tuples show more than one
distinct first segment and those segments are not all partition-style, the
root-ambiguity check appends exactly one conflicting-structure block —
exactly one header line, one suspicious-path line for every root-level path,
and the remediation text — and the depth-level check (Step 2) is not run;
otherwise Step 1 emits nothing and the run proceeds to Step 2 on the
unchanged state. -/
theorem c3_root_ambiguity (f : Forest) (base : String) (st : VState) (rp : List String)
    (hst : st = collectForest [] f initState) (hrp : rp = level1Heads st) :
    ((1 < rp.length ∧ ¬ rp.all hasEq = true) →
        checkConflicts base st = { st with errors := st.errors ++ conflictBlock base rp } ∧
        (checkConflicts base st).errors.count conflictHeaderMsg = 1 ∧
        (∀ p ∈ rp, ("\t" ++ pathJoin base p) ∈ (checkConflicts base st).errors)) ∧
    ((rp.length ≤ 1 ∨ rp.all hasEq = true) →
        checkConflicts base st = step2 base st st.directory_structures) := by
  have hshape : dsShape st.directory_structures := by
    rw [hst]
    exact collect_top f initState trivial
  have hbridge : rootPaths st.directory_structures = rp := by
    rw [hrp, level1Heads]
    exact rootPaths_eq _ hshape
  have herr : st.errors = [] := by
    rw [hst]
    exact collect_errors f [] initState
  have hcc0 : checkConflicts base st =
      if 1 < (rootPaths st.directory_structures).length ∧
          ¬ (rootPaths st.directory_structures).all hasEq = true then
        { st with errors := st.errors ++ conflictBlock base (rootPaths st.directory_structures) }
      else step2 base st st.directory_structures := rfl
  constructor
  · intro hcond
    have hcc : checkConflicts base st =
        { st with errors := st.errors ++ conflictBlock base rp } := by
      rw [hcc0, hbridge]
      exact if_pos hcond
    have herrs : (checkConflicts base st).errors = conflictBlock base rp := by
      rw [hcc]
      simp [herr]
    refine ⟨hcc, ?_, ?_⟩
    · rw [herrs]
      unfold conflictBlock
      rw [List.count_append, List.count_cons]
      have hmap : (rp.map (fun p => "\t" ++ pathJoin base p)).count conflictHeaderMsg = 0 := by
        rw [List.count_eq_zero]
        intro hmem
        obtain ⟨p, _, hpe⟩ := List.mem_map.1 hmem
        exact tab_line_ne_header (pathJoin base p) hpe
      rw [hmap]
      have hrem : ([remediationMsg] : List String).count conflictHeaderMsg = 0 := by decide
      rw [hrem]
      simp
    · intro p hp
      rw [herrs]
      unfold conflictBlock
      exact List.mem_append_left _ (List.mem_cons_of_mem _ (List.mem_map.2 ⟨p, hp, rfl⟩))
  · intro hcond
    rw [hcc0, hbridge]
    refine if_neg ?_
    rintro ⟨hlen, hall⟩
    rcases hcond with hc | hc
    · omega
    · exact hall hc

/-- Witness for C3 at a two-root tree mixing a plain directory name with a
partition-style one. -/
theorem c3_root_ambiguity_witness :
    (1 < (level1Heads (collectForest [] c3WTree initState)).length ∧
      ¬ (level1Heads (collectForest [] c3WTree initState)).all hasEq = true) ∧
    checkConflicts "/b" (collectForest [] c3WTree initState) =
      { collectForest [] c3WTree initState with
          errors := (collectForest [] c3WTree initState).errors ++
            conflictBlock "/b" (level1Heads (collectForest [] c3WTree initState)) } :=
  ⟨by decide, ((c3_root_ambiguity c3WTree "/b" _ _ rfl rfl).1 (by decide)).1⟩
